import Mathlib

/-!
Verification of the streaming conversation engine of the local-ai-workspace
client: the frame decoder (src/src/lib/api.ts, api.chat.send), the session
store operations (src/src/store/appStore.ts: sendMessage, setActiveConversation,
regenerateLastResponse), the useChat send guard (src/src/hooks/useChat.ts) and
the citation confidence aggregation (src/src/components/SourceCitation.tsx).

The TypeScript code is embedded shallowly: JS strings become Lean `String`
(char lists for the decoder, which manipulates text at line granularity),
optional fields become `Option`, the `zustand` store state becomes an explicit
`AppState` record and each store operation becomes a pure state transformer.
Effects of external collaborators (the HTTP server, `crypto.randomUUID()`,
`new Date()`, `JSON.parse`) are passed in as parameters: the proofs quantify
over them.
-/

namespace LocalAI

/-- Per-source confidence classification (types.ts, `Source.confidence`). -/
inductive Confidence where
  | high
  | medium
  | low
  | unknown
deriving DecidableEq

/-- Message role (types.ts, `Message.role`). -/
inductive Role where
  | user
  | assistant
  | system
deriving DecidableEq

/-- Chat mode (types.ts, `ChatMode`). -/
inductive ChatMode where
  | general
  | workspace
deriving DecidableEq

/-- A retrieval source attached to an assistant message (types.ts, `Source`).
The numeric relevance score is embedded as a rational; no modeled operation
computes with it. -/
structure Source where
  filename : String
  chunk_text : String
  page : Option Int
  score : Rat
  confidence : Option Confidence := none
  doc_id : Option String := none
  full_chunk_text : Option String := none
deriving DecidableEq

/-- A committed chat message (types.ts, `Message`). -/
structure Message where
  id : String
  conversation_id : String
  role : Role
  content : String
  sources : List Source
  created_at : String
deriving DecidableEq

/-- A conversation (types.ts, `Conversation`). -/
structure Conversation where
  id : String
  workspace_id : Option String
  title : String
  mode : ChatMode
  system_prompt : String
  is_pinned : Bool
  folder : Option String
  tags : List String
  created_at : String
  updated_at : String
deriving DecidableEq

/-- Retrieval metadata optionally carried by a `done` event (types.ts,
`StreamChunk.retrieval_metadata`). Not read by any modeled operation. -/
structure RetrievalMetadata where
  strategy : String
  total_results : Int
  high : Int
  medium : Int
  low : Int
deriving DecidableEq

/-- Discriminator of the stream event union (types.ts, `StreamChunk.type`,
the string union "chunk" | "done" | "error"). -/
inductive ChunkType where
  | chunk
  | done
  | error
deriving DecidableEq

/-- One decoded stream event (types.ts, `StreamChunk`). All fields other than
the discriminator are optional in the TypeScript interface. The wire type of
the event-level `confidence` field excludes `unknown`; it is not read by any
modeled operation. -/
structure StreamChunk where
  type : ChunkType
  content : Option String := none
  message_id : Option String := none
  sources : Option (List Source) := none
  confidence : Option Confidence := none
  retrieval_metadata : Option RetrievalMetadata := none
deriving DecidableEq

/-- JS truthiness of an optional string: `undefined` and the empty string are
falsy, every other string is truthy. Used wherever the source tests an
optional string field directly (`chunk.content`, `chunk.message_id`). -/
def jsTruthy : Option String → Bool
  | none => false
  | some s => s ≠ ""

/-! ## Citation confidence aggregation

SourceCitation.tsx, lines 67-74 (the v1.5 component):

  const hasConfidence = sources.some(s => s.confidence && s.confidence !== "unknown");
  const highConfidenceCount = sources.filter(s => s.confidence === "high").length;
  const overallConfidence = hasConfidence
    ? highConfidenceCount >= sources.length / 2 ? "high"
      : sources.some(s => s.confidence === "medium") ? "medium"
      : "low"
    : undefined;
-/

/-- The JS test `s.confidence && s.confidence !== "unknown"`: the field is
present (truthy) and not `"unknown"`. -/
def isKnownConfidence (s : Source) : Bool :=
  match s.confidence with
  | some c => decide (c ≠ Confidence.unknown)
  | none => false

/-- `sources.some(s => s.confidence && s.confidence !== "unknown")`. -/
def hasConfidence (sources : List Source) : Bool :=
  sources.any isKnownConfidence

/-- `sources.filter(s => s.confidence === "high").length`. -/
def highConfidenceCount (sources : List Source) : Nat :=
  (sources.filter (fun s => decide (s.confidence = some Confidence.high))).length

/-- The aggregate confidence computed by SourceCitation. The JS comparison
`highConfidenceCount >= sources.length / 2` divides the total source count by
two as a real number; over naturals it is exactly `2 * count ≥ length`
(see `half_test_iff_rat`). -/
def overallConfidence (sources : List Source) : Option Confidence :=
  if hasConfidence sources then
    some (if 2 * highConfidenceCount sources ≥ sources.length then Confidence.high
          else if sources.any (fun s => decide (s.confidence = some Confidence.medium)) then
            Confidence.medium
          else Confidence.low)
  else none

/-- The aggregation rule as worded by claim C3 and the spec (section 4.6):
`high` if at least half of the sources *with known confidence* are `high`;
else `medium` if any source is `medium`; else `low`; undefined when no source
carries a known confidence. Written from the claim's words, for comparison
with `overallConfidence`, which is taken from the code. -/
def claimAggregate (sources : List Source) : Option Confidence :=
  let known := sources.filter isKnownConfidence
  if known.length = 0 then none
  else if 2 * highConfidenceCount sources ≥ known.length then some Confidence.high
  else if sources.any (fun s => decide (s.confidence = some Confidence.medium)) then
    some Confidence.medium
  else some Confidence.low

/-- The amended aggregation rule: `high` if the number of `high` sources is at
least half of the *total* number of sources; else `medium` if any source is
`medium`; else `low`; undefined exactly when no source carries a known
confidence. Written from the amended claim's words, for comparison with
`overallConfidence`. -/
def amendedAggregate (sources : List Source) : Option Confidence :=
  if sources.all (fun s => ! isKnownConfidence s) then none
  else if 2 * highConfidenceCount sources ≥ sources.length then some Confidence.high
  else if sources.any (fun s => decide (s.confidence = some Confidence.medium)) then
    some Confidence.medium
  else some Confidence.low

/-! ## Frame decoder

api.ts, `api.chat.send`, lines 117-138. After the request has been opened the
response body is consumed fragment by fragment:

  const decoder = new TextDecoder();
  let buffer = "";
  while (true) {
    const { done, value } = await reader.read();
    if (done) break;
    buffer += decoder.decode(value, { stream: true });
    const lines = buffer.split("\n");
    buffer = lines.pop() || "";
    for (const line of lines) {
      const trimmed = line.trim();
      if (!trimmed.startsWith("data: ")) continue;
      try { const data = JSON.parse(trimmed.slice(6)); yield data; }
      catch { continue; }
    }
  }

Text is embedded as `List Char`; a transport delivery is a list of fragments.
`JSON.parse` followed by the catch clause is an external parser that either
produces an event or fails, embedded as a parameter `parse` of type
`List Char → Option StreamChunk`; the theorems quantify over it. -/

/-- ASCII whitespace stripped by `String.prototype.trim`. -/
def isJsWhitespace (c : Char) : Bool :=
  c = ' ' || c = '\t' || c = '\n' || c = '\r' || c = '\x0b' || c = '\x0c'

/-- `line.trim()`: strip whitespace from both ends. -/
def trimChars (l : List Char) : List Char :=
  ((l.dropWhile isJsWhitespace).reverse.dropWhile isJsWhitespace).reverse

/-- `trimmed.startsWith("data: ")`: the six marker characters. -/
def startsWithMarker : List Char → Bool
  | 'd' :: 'a' :: 't' :: 'a' :: ':' :: ' ' :: _ => true
  | _ => false

/-- The body of the inner `for` loop for one complete line: trim, discard the
line unless it starts with the marker, strip the six marker characters
(`trimmed.slice(6)`) and hand the rest to the JSON parser; a parse failure
yields nothing. -/
def processLine (parse : List Char → Option StreamChunk) (line : List Char) :
    Option StreamChunk :=
  let trimmed := trimChars line
  if startsWithMarker trimmed then parse (trimmed.drop 6) else none

/-- `buffer.split("\n")` on char lists: always returns at least one segment;
a trailing newline yields a trailing empty segment, exactly like the JS
`String.prototype.split` with a one-character separator. -/
def splitNl : List Char → List (List Char)
  | [] => [[]]
  | c :: cs =>
    if c = '\n' then [] :: splitNl cs
    else (splitNl cs).modifyHead (fun l => c :: l)

/-- The decoder loop over the remaining fragments, carrying the residual
`buffer`: append the fragment, split on newline, keep the last segment as the
new residual (`buffer = lines.pop() || ""`), process all complete lines in
order. When the transport closes (`done`), the loop exits and the residual is
discarded. -/
def decodeFragments (parse : List Char → Option StreamChunk) :
    List (List Char) → List Char → List StreamChunk
  | [], _ => []
  | f :: fs, buffer =>
    let lines := splitNl (buffer ++ f)
    lines.dropLast.filterMap (processLine parse)
      ++ decodeFragments parse fs (lines.getLastD [])

/-- The whole event sequence produced by one response body delivered as the
given fragments, starting from an empty residual buffer. -/
def decodeStream (parse : List Char → Option StreamChunk)
    (fragments : List (List Char)) : List StreamChunk :=
  decodeFragments parse fragments []

/-! ## Session store

appStore.ts. The store state is embedded as the record slice touched by the
chat operations; fields the modeled operations neither read nor write
(workspaces, documents, settings, theme, sidebar, templates, the conversation
list refreshed by the fire-and-forget `loadConversations()` call) are omitted.
External inputs are parameters: `uid` and `aid` are the values produced by the
two `crypto.randomUUID()` calls, `now` the `new Date().toISOString()` value,
and the transport outcome is a `StreamResult`. -/

/-- The chat-relevant slice of the zustand store state (appStore.ts,
`AppState`). -/
structure AppState where
  activeConversation : Option Conversation
  messages : List Message
  isStreaming : Bool
  streamingContent : String
  streamingSources : List Source
  error : Option String
deriving DecidableEq

/-- What consuming `api.chat.send(...)` delivered: either the stream ran to
transport close and yielded the listed events, or an exception carrying
`msg` (already converted by the catch clause to the surfaced string) was
thrown after the listed events had been consumed. A rejected initial request
is `failure [] msg`. -/
inductive StreamResult where
  | events (evs : List StreamChunk)
  | failure (consumed : List StreamChunk) (msg : String)
deriving DecidableEq

/-- The optimistic local user message (appStore.ts lines 405-412). -/
def mkUserMessage (uid convId content now : String) : Message :=
  { id := uid
    conversation_id := convId
    role := Role.user
    content := content
    sources := []
    created_at := now }

/-- The committed assistant message built in the `done` branch (appStore.ts
lines 443-450): `id: chunk.message_id || crypto.randomUUID()` falls back to
the local id whenever `message_id` is absent or empty (JS truthiness);
content is the accumulated buffer; `sources: chunk.sources || []` (a present
empty array is truthy and kept). -/
def doneMessage (convId aid now : String) (streamed : String) (c : StreamChunk) :
    Message :=
  { id := if jsTruthy c.message_id then c.message_id.getD "" else aid
    conversation_id := convId
    role := Role.assistant
    content := streamed
    sources := c.sources.getD []
    created_at := now }

/-- The state after the optimistic insert (appStore.ts lines 414-420): the
user message is appended, the streaming flag raised, the buffer and the
streaming sources cleared, and a prior error dismissed. -/
def startedState (uid now content : String) (conv : Conversation) (s : AppState) :
    AppState :=
  { s with
    messages := s.messages ++ [mkUserMessage uid conv.id content now]
    isStreaming := true
    streamingContent := ""
    streamingSources := []
    error := none }

/-- One iteration of `for await (const chunk of stream)` (appStore.ts lines
437-463): a truthy-content `chunk` appends its fragment to the buffer; `done`
commits the assistant message built from the current buffer, lowers the
streaming flag and clears the buffer; `error` lowers the streaming flag and
stores the message (default text when the event carries no content) — it does
not touch the buffer or the message list, and the loop continues with the
next event. -/
def applyEvent (convId aid now : String) (s : AppState) (c : StreamChunk) :
    AppState :=
  match c.type with
  | ChunkType.chunk =>
    if jsTruthy c.content then
      { s with streamingContent := s.streamingContent ++ c.content.getD "" }
    else s
  | ChunkType.done =>
    { s with
      messages := s.messages ++ [doneMessage convId aid now s.streamingContent c]
      isStreaming := false
      streamingContent := ""
      streamingSources := c.sources.getD [] }
  | ChunkType.error =>
    { s with
      isStreaming := false
      error := some (if jsTruthy c.content then c.content.getD "" else "An error occurred") }

/-- `sendMessage` (appStore.ts lines 401-472) as a state transformer. With no
active conversation the call returns at once. Otherwise the user message is
inserted optimistically, then the stream events are folded in order; an
exception from the request or the iteration lands in the catch clause, which
lowers the streaming flag and stores the message. The trailing
`loadConversations()` refresh only touches the conversation list, which is
outside the modeled slice. -/
def sendMessage (uid aid now content : String) (result : StreamResult)
    (s : AppState) : AppState :=
  match s.activeConversation with
  | none => s
  | some conv =>
    let s1 := startedState uid now content conv s
    match result with
    | StreamResult.events evs => evs.foldl (applyEvent conv.id aid now) s1
    | StreamResult.failure consumed msg =>
      { consumed.foldl (applyEvent conv.id aid now) s1 with
        isStreaming := false
        error := some msg }

/-- `setActiveConversation` (appStore.ts lines 360-366): select the
conversation, clear the message list and the streaming buffer/sources, then,
when a conversation was selected, load its messages from the server (the
server response is the parameter `fetched`). The streaming flag and the error
value are not touched. -/
def setActiveConversation (conv : Option Conversation) (fetched : List Message)
    (s : AppState) : AppState :=
  let s1 := { s with
    activeConversation := conv
    messages := []
    streamingContent := ""
    streamingSources := [] }
  match conv with
  | some _ => { s1 with messages := fetched }
  | none => s1

/-- `content.trim()` on whole strings, via the decoder's `trimChars`. -/
def jsTrim (s : String) : String := String.mk (trimChars s.data)

/-- `useChat().send` (useChat.ts lines 17-33): empty or streaming input is
silently dropped (`if (!content.trim() || isStreaming) return;`). Otherwise,
when no conversation is active one is created and selected first
(`createConversation` round-trips to the server; `created` is the returned
conversation and `fetched` the message list loaded on selecting it), and the
store's `sendMessage` runs with the original content. -/
def useChatSend (uid aid now content : String) (result : StreamResult)
    (created : Conversation) (fetched : List Message) (s : AppState) : AppState :=
  if jsTrim content == "" || s.isStreaming then s
  else
    match s.activeConversation with
    | some _ => sendMessage uid aid now content result s
    | none =>
      sendMessage uid aid now content result
        (setActiveConversation (some created) fetched s)

/-- The server response of `POST /chat/conversations/:id/regenerate`
(api.ts lines 89-93). -/
structure RegenerateResult where
  deleted_message_id : String
  last_user_message : Option Message
deriving DecidableEq

/-- `regenerateLastResponse` (appStore.ts lines 487-502): with no active
conversation the call returns at once. Otherwise the regenerate endpoint is
called (`apiResult` is its outcome; a thrown message lands in the catch
clause and is stored as the error). On success, only when the response
carries a `last_user_message` does anything happen: the message with the
returned `deleted_message_id` is filtered out of the local list and a fresh
send cycle runs with the recovered content; a response without a user message
is silently ignored. -/
def regenerateLastResponse (uid aid now : String)
    (apiResult : Except String RegenerateResult) (sendResult : StreamResult)
    (s : AppState) : AppState :=
  match s.activeConversation with
  | none => s
  | some _ =>
    match apiResult with
    | Except.error msg => { s with error := some msg }
    | Except.ok r =>
      match r.last_user_message with
      | none => s
      | some lum =>
        let s1 := { s with
          messages := s.messages.filter (fun m => m.id != r.deleted_message_id) }
        sendMessage uid aid now lum.content sendResult s1

/-- Concatenation, in order, of the `content` fields of a list of events; an
absent field contributes nothing. -/
def concatContents : List StreamChunk → String
  | [] => ""
  | c :: cs => c.content.getD "" ++ concatContents cs

/-- A concrete conversation used by witnesses and counterexamples. -/
def conv0 : Conversation :=
  { id := "c1"
    workspace_id := none
    title := "New chat"
    mode := ChatMode.general
    system_prompt := ""
    is_pinned := false
    folder := none
    tags := []
    created_at := "t"
    updated_at := "t" }

/-- A concrete store state with `conv0` selected and an empty history, used
by witnesses and counterexamples. -/
def state0 : AppState :=
  { activeConversation := some conv0
    messages := []
    isStreaming := false
    streamingContent := ""
    streamingSources := []
    error := none }

/-- A parser used only by concrete witness inputs: accepts every body as a
chunk event carrying it verbatim. -/
def parseAsChunk (l : List Char) : Option StreamChunk :=
  some { type := ChunkType.chunk, content := some (String.mk l) }

/-- A concrete state with a stream in flight, used by witnesses and
counterexamples. -/
def streamingState : AppState :=
  { state0 with isStreaming := true, streamingContent := "par" }

/-- A concrete committed user message, used by witnesses. -/
def userMsg0 : Message := mkUserMessage "u0" "c1" "question" "t0"

/-- A concrete committed assistant message, used by witnesses. -/
def asstMsg0 : Message :=
  { id := "m9"
    conversation_id := "c1"
    role := Role.assistant
    content := "old answer"
    sources := []
    created_at := "t0" }

/-- A concrete state whose history ends in an assistant message, used by the
regenerate witnesses and counterexamples. -/
def stateR : AppState := { state0 with messages := [userMsg0, asstMsg0] }

/-- Boolean prefix test on lists, used to state that a message list begins
with its prior contents plus the optimistic user message. -/
def beginsWith {α : Type} [DecidableEq α] : List α → List α → Bool
  | [], _ => true
  | _ :: _, [] => false
  | a :: as, b :: bs => decide (a = b) && beginsWith as bs

/-! ## Decoder lemmas -/

theorem splitNl_ne_nil (l : List Char) : splitNl l ≠ [] := by
  induction l with
  | nil => simp [splitNl]
  | cons c cs ih =>
    simp only [splitNl]
    split
    · simp
    · cases h : splitNl cs with
      | nil => exact absurd h ih
      | cons a as => simp [List.modifyHead]

theorem splitNl_cons_nl (cs : List Char) : splitNl ('\n' :: cs) = [] :: splitNl cs := by
  simp [splitNl]

theorem splitNl_cons_ne {c : Char} (h : ¬ c = '\n') (cs : List Char) :
    splitNl (c :: cs) = (splitNl cs).modifyHead (fun l => c :: l) := by
  simp [splitNl, h]

theorem mem_splitNl_no_nl {l p : List Char} (hp : p ∈ splitNl l) : '\n' ∉ p := by
  induction l generalizing p with
  | nil =>
    simp only [splitNl, List.mem_singleton] at hp
    subst hp; simp
  | cons c cs ih =>
    by_cases hc : c = '\n'
    · subst hc
      rw [splitNl_cons_nl] at hp
      rcases List.mem_cons.mp hp with rfl | hp
      · simp
      · exact ih hp
    · rw [splitNl_cons_ne hc] at hp
      cases hsp : splitNl cs with
      | nil => exact absurd hsp (splitNl_ne_nil cs)
      | cons a as =>
        rw [hsp, List.modifyHead] at hp
        rcases List.mem_cons.mp hp with rfl | hp
        · intro hmem
          rcases List.mem_cons.mp hmem with h1 | h1
          · exact hc h1.symm
          · exact ih (hsp ▸ List.mem_cons_self a as) h1
        · exact ih (hsp ▸ List.mem_cons_of_mem a hp)

theorem splitNl_eq_single {l : List Char} (h : '\n' ∉ l) : splitNl l = [l] := by
  induction l with
  | nil => rfl
  | cons c cs ih =>
    have hc : ¬ c = '\n' := fun e => h (by rw [e]; exact List.mem_cons_self _ _)
    rw [splitNl_cons_ne hc, ih (fun hm => h (List.mem_cons_of_mem c hm))]
    rfl

theorem getLastD_mem {α : Type} (l : List α) (d : α) (h : l ≠ []) :
    l.getLastD d ∈ l := by
  induction l generalizing d with
  | nil => exact absurd rfl h
  | cons a as ih =>
    rw [List.getLastD_cons]
    cases as with
    | nil => simp [List.getLastD]
    | cons b bs => exact List.mem_cons_of_mem a (ih a (by simp))

theorem residual_no_nl (l : List Char) : '\n' ∉ (splitNl l).getLastD [] :=
  mem_splitNl_no_nl (getLastD_mem _ _ (splitNl_ne_nil l))

theorem modifyHead_ne_nil {α : Type} (f : α → α) {l : List α} (h : l ≠ []) :
    l.modifyHead f ≠ [] := by
  cases l with
  | nil => exact absurd rfl h
  | cons a as => simp [List.modifyHead]

theorem splitNl_append (a b : List Char) :
    splitNl (a ++ b) =
      (splitNl a).dropLast
        ++ (splitNl b).modifyHead (fun x => (splitNl a).getLastD [] ++ x) := by
  induction a with
  | nil =>
    cases hb : splitNl b with
    | nil => exact absurd hb (splitNl_ne_nil b)
    | cons x xs => simp [splitNl, List.modifyHead, hb]
  | cons c a ih =>
    by_cases hc : c = '\n'
    · subst hc
      rw [List.cons_append, splitNl_cons_nl, splitNl_cons_nl, ih]
      cases ha : splitNl a with
      | nil => exact absurd ha (splitNl_ne_nil a)
      | cons x xs => simp [List.getLastD_cons]
    · rw [List.cons_append, splitNl_cons_ne hc, splitNl_cons_ne hc, ih]
      cases ha : splitNl a with
      | nil => exact absurd ha (splitNl_ne_nil a)
      | cons x xs =>
        cases xs with
        | nil =>
          cases hb : splitNl b with
          | nil => exact absurd hb (splitNl_ne_nil b)
          | cons y ys => simp [List.modifyHead, List.getLastD_cons]
        | cons x2 xs2 => simp [List.modifyHead, List.getLastD_cons]

theorem splitNl_no_nl_append {a : List Char} (h : '\n' ∉ a) (b : List Char) :
    splitNl (a ++ b) = (splitNl b).modifyHead (fun x => a ++ x) := by
  rw [splitNl_append, splitNl_eq_single h]
  simp [List.getLastD]

theorem decodeFragments_closed_form (parse : List Char → Option StreamChunk)
    (fs : List (List Char)) :
    ∀ buffer : List Char, '\n' ∉ buffer →
      decodeFragments parse fs buffer =
        (splitNl (buffer ++ fs.flatten)).dropLast.filterMap (processLine parse) := by
  induction fs with
  | nil =>
    intro buffer hb
    rw [List.flatten_nil, List.append_nil, splitNl_eq_single hb]
    simp [decodeFragments]
  | cons f fs ih =>
    intro buffer hb
    simp only [decodeFragments]
    rw [ih _ (residual_no_nl (buffer ++ f))]
    rw [List.flatten_cons, ← List.append_assoc]
    rw [splitNl_append (buffer ++ f) fs.flatten]
    rw [← splitNl_no_nl_append (residual_no_nl (buffer ++ f)) fs.flatten]
    rw [List.dropLast_append_of_ne_nil _
      (by rw [splitNl_no_nl_append (residual_no_nl (buffer ++ f)) fs.flatten]
          exact modifyHead_ne_nil _ (splitNl_ne_nil _))]
    rw [List.filterMap_append]

/-- The decoder output over any fragmentation equals the marked-line parses of
the complete lines of the whole transmitted text. Shared by the decoder
claims. -/
theorem decodeStream_closed_form (parse : List Char → Option StreamChunk)
    (frags : List (List Char)) :
    decodeStream parse frags =
      (splitNl frags.flatten).dropLast.filterMap (processLine parse) := by
  have h := decodeFragments_closed_form parse frags [] (by simp)
  simpa [decodeStream] using h

/-! ## Store lemmas -/

theorem applyEvent_chunk {c : StreamChunk} (h : c.type = ChunkType.chunk)
    (convId aid now : String) (s : AppState) :
    applyEvent convId aid now s c =
      { s with streamingContent := s.streamingContent ++ c.content.getD "" } := by
  unfold applyEvent
  rw [h]
  by_cases hc : jsTruthy c.content
  · simp [hc]
  · have he : c.content.getD "" = "" := by
      cases hcc : c.content with
      | none => rfl
      | some str =>
        rw [hcc] at hc
        simp [jsTruthy] at hc
        simp [hc]
    simp [hc, he, String.append_empty]

theorem foldl_chunks (convId aid now : String) (cs : List StreamChunk) :
    (∀ c ∈ cs, c.type = ChunkType.chunk) → ∀ s : AppState,
      cs.foldl (applyEvent convId aid now) s =
        { s with streamingContent := s.streamingContent ++ concatContents cs } := by
  induction cs with
  | nil => intro _ s; simp [concatContents, String.append_empty]
  | cons c cs ih =>
    intro h s
    rw [List.foldl_cons, applyEvent_chunk (h c (List.mem_cons_self c cs)),
        ih (fun x hx => h x (List.mem_cons_of_mem c hx))]
    simp [concatContents, String.append_assoc]

theorem applyEvent_messages (convId aid now : String) (s : AppState)
    (c : StreamChunk) :
    ∃ t, (applyEvent convId aid now s c).messages = s.messages ++ t := by
  cases hc : c.type with
  | chunk =>
    refine ⟨[], ?_⟩
    simp only [applyEvent, hc]
    split <;> simp
  | done =>
    exact ⟨[doneMessage convId aid now s.streamingContent c], by simp [applyEvent, hc]⟩
  | error => exact ⟨[], by simp [applyEvent, hc]⟩

theorem applyEvent_messages_of_ne_done {c : StreamChunk}
    (h : c.type ≠ ChunkType.done) (convId aid now : String) (s : AppState) :
    (applyEvent convId aid now s c).messages = s.messages := by
  cases hc : c.type with
  | chunk =>
    simp only [applyEvent, hc]
    split <;> rfl
  | done => exact absurd hc h
  | error => simp [applyEvent, hc]

theorem foldl_messages_prefix (convId aid now : String) (evs : List StreamChunk) :
    ∀ s : AppState, ∃ t,
      (evs.foldl (applyEvent convId aid now) s).messages = s.messages ++ t := by
  induction evs with
  | nil => intro s; exact ⟨[], by simp⟩
  | cons c cs ih =>
    intro s
    obtain ⟨t1, h1⟩ := applyEvent_messages convId aid now s c
    obtain ⟨t2, h2⟩ := ih (applyEvent convId aid now s c)
    exact ⟨t1 ++ t2, by rw [List.foldl_cons, h2, h1, List.append_assoc]⟩

theorem foldl_messages_no_done {evs : List StreamChunk}
    (h : ∀ e ∈ evs, e.type ≠ ChunkType.done) (convId aid now : String) :
    ∀ s : AppState,
      (evs.foldl (applyEvent convId aid now) s).messages = s.messages := by
  induction evs with
  | nil => intro s; rfl
  | cons c cs ih =>
    intro s
    rw [List.foldl_cons, ih (fun x hx => h x (List.mem_cons_of_mem c hx)),
        applyEvent_messages_of_ne_done (h c (List.mem_cons_self c cs))]

/-- The optimistic user message survives every outcome of `sendMessage`; used
by several claims. -/
theorem sendMessage_appends_user {s : AppState} {conv : Conversation}
    (h : s.activeConversation = some conv)
    (uid aid now content : String) (result : StreamResult) :
    ∃ t, (sendMessage uid aid now content result s).messages
      = s.messages ++ mkUserMessage uid conv.id content now :: t := by
  unfold sendMessage
  rw [h]
  cases result with
  | events evs =>
    obtain ⟨t, ht⟩ :=
      foldl_messages_prefix conv.id aid now evs (startedState uid now content conv s)
    exact ⟨t, by rw [ht]; simp [startedState]⟩
  | failure consumed msg =>
    obtain ⟨t, ht⟩ :=
      foldl_messages_prefix conv.id aid now consumed (startedState uid now content conv s)
    refine ⟨t, ?_⟩
    show (consumed.foldl (applyEvent conv.id aid now)
        (startedState uid now content conv s)).messages = _
    rw [ht]
    simp [startedState]

theorem beginsWith_append_cons {α : Type} [DecidableEq α]
    (a : List α) (u : α) (t : List α) :
    beginsWith (a ++ [u]) (a ++ u :: t) = true := by
  induction a with
  | nil => simp [beginsWith]
  | cons x xs ih => simp [beginsWith, ih]

/-- The guard of `useChat().send`: while a stream is in flight the call
returns the state unchanged. Shared helper. -/
theorem useChatSend_guard {s : AppState} (h : s.isStreaming = true)
    (uid aid now content : String) (result : StreamResult)
    (created : Conversation) (fetched : List Message) :
    useChatSend uid aid now content result created fetched s = s := by
  unfold useChatSend
  rw [h]
  simp

/-- `setActiveConversation` never touches the streaming flag. Shared helper. -/
theorem setActiveConversation_isStreaming (conv : Option Conversation)
    (fetched : List Message) (s : AppState) :
    (setActiveConversation conv fetched s).isStreaming = s.isStreaming := by
  cases conv <;> rfl

/-- The JS float comparison `count >= length / 2` agrees with the natural
number test `2 * count ≥ length` used in `overallConfidence`. -/
theorem half_test_iff_rat (c l : Nat) : 2 * c ≥ l ↔ (c : Rat) ≥ (l : Rat) / 2 := by
  rw [ge_iff_le, ge_iff_le, div_le_iff₀ (by norm_num : (0 : Rat) < 2)]
  have h2 : ((l : Rat) ≤ (c : Rat) * 2) ↔ ((l : Nat) ≤ c * 2) := by exact_mod_cast Iff.rfl
  rw [h2]
  omega

/-! ## Claim C7: the frame decoder yields exactly the marked complete lines -/

/-- Claim C7 (confirmed). For every sequence of text fragments, in whatever
way the transmitted text is cut into fragments, the decoder yields exactly
the parses (`processLine`: trim, require the marker `"data: "`, strip it,
parse; `none` both for unmarked lines and for parse failures, which are
thereby silently skipped without disturbing the rest) of the
newline-terminated lines of the whole text, in receipt order. -/
theorem decodeStream_exact_marked_lines (parse : List Char → Option StreamChunk)
    (frags : List (List Char)) :
    decodeStream parse frags =
      (splitNl frags.flatten).dropLast.filterMap (processLine parse) :=
  decodeStream_closed_form parse frags

/-! ## Claim C10: residual text at transport close is never yielded -/

/-- Claim C10 (confirmed). A trailing fragment with no line break — in
particular a final complete event line not terminated by a newline — is
retained in the residual buffer and never parsed or yielded: appending it to
any transmission changes nothing in the decoder's output. -/
theorem decodeStream_residual_dropped (parse : List Char → Option StreamChunk)
    (frags : List (List Char)) (t : List Char) (h : '\n' ∉ t) :
    decodeStream parse (frags ++ [t]) = decodeStream parse frags := by
  rw [decodeStream_closed_form, decodeStream_closed_form]
  rw [List.flatten_append, List.flatten_cons, List.flatten_nil, List.append_nil]
  rw [splitNl_append frags.flatten t, splitNl_eq_single h]
  simp only [List.modifyHead]
  rw [List.dropLast_concat]

/-- Witness for C10 at a concrete input: the unterminated line `"data: x"`
would parse (the witness parser accepts everything), yet adds nothing. -/
theorem decodeStream_residual_dropped_witness :
    ('\n' ∉ ("data: x").toList) ∧
      decodeStream parseAsChunk ([("data: a\n").toList] ++ [("data: x").toList])
        = decodeStream parseAsChunk [("data: a\n").toList] :=
  ⟨by decide, decodeStream_residual_dropped parseAsChunk [("data: a\n").toList]
    (("data: x").toList) (by decide)⟩

/-! ## Claim C1: chunk events then one done event -/

/-- Claim C1 counterexample. A `done` event whose `message_id` is present but
empty does not get the server-provided identifier: JS truthiness
(`chunk.message_id || crypto.randomUUID()`) makes the code fall back to the
locally generated id `"a1"`, although `message_id` is not absent. The claim
as stated (local id only when `message_id` is absent) is therefore false at
this input. -/
theorem sendMessage_empty_message_id_counterexample :
    ((sendMessage "u1" "a1" "t1" "hi"
        (StreamResult.events
          [{ type := ChunkType.done, message_id := some "", sources := some [] }])
        state0).messages.map Message.id) = ["u1", "a1"]
    ∧ ({ type := ChunkType.done, message_id := some "", sources := some [] }
        : StreamChunk).message_id ≠ none
    ∧ ("a1" : String) ≠ "" := by
  decide

/-- Claim C1 (amended). For a stream of zero or more chunk events followed by
exactly one done event, the committed assistant message has content equal to
the concatenation, in receipt order, of the content fields of all chunk
events (an absent field contributing nothing), id equal to the done event's
`message_id` — the locally generated identifier `aid` when `message_id` is
absent *or empty* — and sources equal to the done event's source list (empty
when absent); and it is appended right after the optimistic user message. -/
theorem sendMessage_chunks_then_done {s : AppState} {conv : Conversation}
    (h : s.activeConversation = some conv) (cs : List StreamChunk)
    (d : StreamChunk) (hcs : ∀ c ∈ cs, c.type = ChunkType.chunk)
    (hd : d.type = ChunkType.done) (uid aid now content : String) :
    (sendMessage uid aid now content (StreamResult.events (cs ++ [d])) s).messages
      = s.messages
        ++ [mkUserMessage uid conv.id content now,
            { id := if jsTruthy d.message_id then d.message_id.getD "" else aid
              conversation_id := conv.id
              role := Role.assistant
              content := concatContents cs
              sources := d.sources.getD []
              created_at := now }] := by
  unfold sendMessage
  rw [h]
  show ((cs ++ [d]).foldl (applyEvent conv.id aid now)
      (startedState uid now content conv s)).messages = _
  rw [List.foldl_append, foldl_chunks conv.id aid now cs hcs, List.foldl_cons,
    List.foldl_nil]
  simp only [applyEvent, hd]
  simp [startedState, doneMessage, String.empty_append]

/-- Witness for C1 at the spec's concrete scenario: `chunk "Hi"`,
`chunk " there"`, `done (message_id "m1", sources [])`. -/
theorem sendMessage_chunks_then_done_witness :
    (sendMessage "u1" "a1" "t1" "Hello"
        (StreamResult.events
          ([{ type := ChunkType.chunk, content := some "Hi" },
            { type := ChunkType.chunk, content := some " there" }]
            ++ [{ type := ChunkType.done, message_id := some "m1", sources := some [] }]))
        state0).messages
      = [mkUserMessage "u1" "c1" "Hello" "t1",
         { id := "m1"
           conversation_id := "c1"
           role := Role.assistant
           content := "Hi there"
           sources := []
           created_at := "t1" }] := by
  have h := @sendMessage_chunks_then_done state0 conv0 rfl
    [{ type := ChunkType.chunk, content := some "Hi" },
     { type := ChunkType.chunk, content := some " there" }]
    { type := ChunkType.done, message_id := some "m1", sources := some [] }
    (by decide) rfl "u1" "a1" "t1" "Hello"
  rw [h]
  decide

/-! ## Claim C2: an error event and the message list -/

/-- Claim C2 counterexample. The event loop does not stop at an `error`
event; if a `done` event follows, an assistant message is committed after
all. The claim as stated (no assistant message for every sequence containing
an error event at any position) is therefore false at this input. -/
theorem sendMessage_error_then_done_counterexample :
    ((sendMessage "u1" "a1" "t1" "hi"
        (StreamResult.events
          [{ type := ChunkType.error, content := some "boom" },
           { type := ChunkType.done, message_id := some "m1", sources := some [] }])
        state0).messages.map Message.role) = [Role.user, Role.assistant] := by
  decide

/-- Claim C2 (amended). For every fully consumed stream event sequence that
contains an error event and contains no done event — in particular every
well-formed stream terminated by its error event — no assistant message is
appended: the list after the call is exactly its prior contents plus the
optimistic user message. -/
theorem sendMessage_error_no_commit {s : AppState} {conv : Conversation}
    (h : s.activeConversation = some conv) {evs : List StreamChunk}
    (hErr : ∃ e ∈ evs, e.type = ChunkType.error)
    (hNoDone : ∀ e ∈ evs, e.type ≠ ChunkType.done)
    (uid aid now content : String) :
    (sendMessage uid aid now content (StreamResult.events evs) s).messages
      = s.messages ++ [mkUserMessage uid conv.id content now] := by
  unfold sendMessage
  rw [h]
  show (evs.foldl (applyEvent conv.id aid now)
      (startedState uid now content conv s)).messages = _
  rw [foldl_messages_no_done hNoDone conv.id aid now]
  rfl

/-- Witness for C2 at a concrete input: a single error event. -/
theorem sendMessage_error_no_commit_witness :
    (sendMessage "u1" "a1" "t1" "hi"
        (StreamResult.events [{ type := ChunkType.error, content := some "boom" }])
        state0).messages
      = state0.messages ++ [mkUserMessage "u1" conv0.id "hi" "t1"] :=
  @sendMessage_error_no_commit state0 conv0 rfl
    [{ type := ChunkType.error, content := some "boom" }]
    (by decide) (by decide) "u1" "a1" "t1" "hi"

/-! ## Claim C4: effects of processing an error event -/

/-- Claim C4 counterexample. After `chunk "a"` then `error "x"`, the
accumulated buffer still holds `"a"` — it is not discarded, contrary to the
claim; and after `error "x"` then `chunk "b"`, the buffer holds `"b"` — the
event after the error was still processed, so processing did not stop. -/
theorem sendMessage_error_keeps_buffer_counterexample :
    ((sendMessage "u1" "a1" "t1" "hi"
        (StreamResult.events
          [{ type := ChunkType.chunk, content := some "a" },
           { type := ChunkType.error, content := some "x" }]) state0).streamingContent
        = "a" ∧ ("a" : String) ≠ "")
    ∧ (sendMessage "u1" "a1" "t1" "hi"
        (StreamResult.events
          [{ type := ChunkType.error, content := some "x" },
           { type := ChunkType.chunk, content := some "b" }]) state0).streamingContent
        = "b" := by
  decide

/-- Claim C4 (amended). When `sendMessage` processes an error event anywhere
in the stream, that step stores the event's message (the default text when
the event carries no content) as the store's error value and clears the
streaming flag, but it retains the partially accumulated `streamingContent`
unchanged, and event processing continues: the remaining events are folded
into the state exactly as if no error had occurred. -/
theorem sendMessage_error_event_effects {s : AppState} {conv : Conversation}
    (h : s.activeConversation = some conv) {err : StreamChunk}
    (hErr : err.type = ChunkType.error)
    (pre post : List StreamChunk) (uid aid now content : String) :
    sendMessage uid aid now content (StreamResult.events (pre ++ err :: post)) s
      = post.foldl (applyEvent conv.id aid now)
          { pre.foldl (applyEvent conv.id aid now) (startedState uid now content conv s) with
            isStreaming := false
            error := some (if jsTruthy err.content then err.content.getD ""
                           else "An error occurred") }
    ∧ ({ pre.foldl (applyEvent conv.id aid now) (startedState uid now content conv s) with
          isStreaming := false
          error := some (if jsTruthy err.content then err.content.getD ""
                         else "An error occurred") } : AppState).streamingContent
      = (pre.foldl (applyEvent conv.id aid now)
          (startedState uid now content conv s)).streamingContent := by
  refine ⟨?_, rfl⟩
  unfold sendMessage
  rw [h]
  show (pre ++ err :: post).foldl (applyEvent conv.id aid now)
      (startedState uid now content conv s) = _
  rw [List.foldl_append, List.foldl_cons]
  congr 1
  simp only [applyEvent, hErr]

/-- Witness for C4 at a concrete input: `chunk "a"` then `error "x"` with no
trailing events; the resulting state keeps buffer `"a"`, has the streaming
flag lowered and error `"x"`. -/
theorem sendMessage_error_event_effects_witness :
    sendMessage "u1" "a1" "t1" "hi"
        (StreamResult.events
          ([{ type := ChunkType.chunk, content := some "a" }]
            ++ { type := ChunkType.error, content := some "x" } :: []))
        state0
      = { activeConversation := some conv0
          messages := [mkUserMessage "u1" "c1" "hi" "t1"]
          isStreaming := false
          streamingContent := "a"
          streamingSources := []
          error := some "x" } := by
  have h := (@sendMessage_error_event_effects state0 conv0 rfl
    { type := ChunkType.error, content := some "x" } rfl
    [{ type := ChunkType.chunk, content := some "a" }] [] "u1" "a1" "t1" "hi").1
  rw [h]
  decide

/-! ## Claim C5: the optimistic user message survives every outcome -/

/-- Claim C5 (confirmed). With a conversation selected, `sendMessage` inserts
the user message (with the locally generated id `uid` and the given content)
so that on every outcome — a fully consumed event sequence, a mid-stream
error event, or a thrown transport exception — the final message list begins
with the prior contents followed by exactly that user message; messages are
only ever appended after it, never removed. On a transport exception the
store only records the thrown message as its error value and lowers the
streaming flag. -/
theorem sendMessage_optimistic_user_message {s : AppState} {conv : Conversation}
    (h : s.activeConversation = some conv) (uid aid now content : String)
    (result : StreamResult) (consumed : List StreamChunk) (msg : String) :
    beginsWith (s.messages ++ [mkUserMessage uid conv.id content now])
        (sendMessage uid aid now content result s).messages = true
    ∧ (sendMessage uid aid now content (StreamResult.failure consumed msg) s).error
        = some msg
    ∧ (sendMessage uid aid now content
        (StreamResult.failure consumed msg) s).isStreaming = false := by
  refine ⟨?_, ?_, ?_⟩
  · obtain ⟨t, ht⟩ := sendMessage_appends_user h uid aid now content result
    rw [ht]
    exact beginsWith_append_cons s.messages (mkUserMessage uid conv.id content now) t
  · unfold sendMessage
    rw [h]
  · unfold sendMessage
    rw [h]

/-- Witness for C5 at a concrete input: the request itself fails with
`"offline"` after no event; the user message is retained and the error
recorded. -/
theorem sendMessage_optimistic_user_message_witness :
    beginsWith (state0.messages ++ [mkUserMessage "u1" conv0.id "hi" "t1"])
        (sendMessage "u1" "a1" "t1" "hi" (StreamResult.failure [] "offline")
          state0).messages = true
    ∧ (sendMessage "u1" "a1" "t1" "hi" (StreamResult.failure [] "offline") state0).error
        = some "offline"
    ∧ (sendMessage "u1" "a1" "t1" "hi"
        (StreamResult.failure [] "offline") state0).isStreaming = false :=
  @sendMessage_optimistic_user_message state0 conv0 rfl "u1" "a1" "t1" "hi"
    (StreamResult.failure [] "offline") [] "offline"

/-! ## Claim C3: aggregate confidence -/

/-- Claim C3 counterexample. With sources `[high, unknown, unknown]` every
source of known confidence is `high`, so the claim's rule ("at least half of
the sources with known confidence are high", formalized as `claimAggregate`)
prescribes `high`; the code compares the high count against half of *all*
sources (1 ≥ 3/2 fails) and yields `low`. -/
theorem overallConfidence_counterexample :
    overallConfidence
        [{ filename := "a", chunk_text := "", page := none, score := 0,
           confidence := some Confidence.high },
         { filename := "b", chunk_text := "", page := none, score := 0,
           confidence := some Confidence.unknown },
         { filename := "c", chunk_text := "", page := none, score := 0,
           confidence := some Confidence.unknown }]
      = some Confidence.low
    ∧ claimAggregate
        [{ filename := "a", chunk_text := "", page := none, score := 0,
           confidence := some Confidence.high },
         { filename := "b", chunk_text := "", page := none, score := 0,
           confidence := some Confidence.unknown },
         { filename := "c", chunk_text := "", page := none, score := 0,
           confidence := some Confidence.unknown }]
      = some Confidence.high := by
  decide

/-- Claim C3 (amended). The aggregate confidence is `high` if the number of
`high`-confidence sources is at least half of the *total* number of sources;
otherwise `medium` if any source is `medium`; otherwise `low`; and it is
undefined exactly when no source carries a known confidence
(`overallConfidence` equals `amendedAggregate`, the rule written from these
words). The claim's three examples hold as given. -/
theorem overallConfidence_amended_spec :
    (∀ sources : List Source, overallConfidence sources = amendedAggregate sources)
    ∧ overallConfidence
        [{ filename := "a", chunk_text := "", page := none, score := 0,
           confidence := some Confidence.high },
         { filename := "b", chunk_text := "", page := none, score := 0,
           confidence := some Confidence.high },
         { filename := "c", chunk_text := "", page := none, score := 0,
           confidence := some Confidence.low }]
        = some Confidence.high
    ∧ overallConfidence
        [{ filename := "a", chunk_text := "", page := none, score := 0,
           confidence := some Confidence.low },
         { filename := "b", chunk_text := "", page := none, score := 0,
           confidence := some Confidence.medium }]
        = some Confidence.medium
    ∧ overallConfidence
        [{ filename := "a", chunk_text := "", page := none, score := 0,
           confidence := some Confidence.unknown }]
        = none := by
  refine ⟨?_, by decide, by decide, by decide⟩
  intro sources
  by_cases h : hasConfidence sources = true
  · have hall : sources.all (fun s => ! isKnownConfidence s) = false := by
      rw [hasConfidence, List.any_eq_true] at h
      obtain ⟨x, hx, hpx⟩ := h
      by_contra hne
      have hat : sources.all (fun s => ! isKnownConfidence s) = true := by
        simpa using hne
      have hx2 := List.all_eq_true.mp hat x hx
      simp [hpx] at hx2
    unfold overallConfidence amendedAggregate
    rw [h, hall, if_pos (rfl : (true : Bool) = true),
      if_neg (by simp : ¬ ((false : Bool) = true))]
    rw [apply_ite Option.some, apply_ite Option.some]
  · have hf : hasConfidence sources = false := by simpa using h
    have hall : sources.all (fun s => ! isKnownConfidence s) = true := by
      rw [hasConfidence, List.any_eq_false] at hf
      rw [List.all_eq_true]
      intro x hx
      have hx2 := hf x hx
      simpa using hx2
    unfold overallConfidence amendedAggregate
    rw [hf, hall, if_neg (by simp : ¬ ((false : Bool) = true)),
      if_pos (rfl : (true : Bool) = true)]

/-! ## Claim C6: a second send while streaming -/

/-- Claim C6 counterexample. A send attempted while a stream is in flight is
dropped without any trace: the state — including its error value, which
stays `none` — is unchanged, so no `InvalidState` (or any other) error is
raised, contrary to the claim. -/
theorem useChatSend_no_invalid_state_counterexample :
    useChatSend "u2" "a2" "t2" "second" (StreamResult.events []) conv0 []
        streamingState = streamingState
    ∧ streamingState.error = none := by
  decide

/-- Claim C6 (amended). A second send attempted while a stream is active is
rejected silently and synchronously, before any transport I/O: the call
returns with the store — the in-flight stream's flag and buffer, the message
list, and the error value — completely unchanged; no error is raised. -/
theorem useChatSend_streaming_noop {s : AppState} (h : s.isStreaming = true)
    (uid aid now content : String) (result : StreamResult)
    (created : Conversation) (fetched : List Message) :
    useChatSend uid aid now content result created fetched s = s :=
  useChatSend_guard h uid aid now content result created fetched

/-- Witness for C6 at a concrete input: a second send against a state with a
stream in flight. -/
theorem useChatSend_streaming_noop_witness :
    useChatSend "u2" "a2" "t2" "second" (StreamResult.failure [] "ignored") conv0
        [userMsg0] streamingState = streamingState :=
  @useChatSend_streaming_noop streamingState rfl "u2" "a2" "t2" "second"
    (StreamResult.failure [] "ignored") conv0 [userMsg0]

/-! ## Claim C8: regenerate -/

/-- Claim C8 counterexample. When the deletion response carries no preceding
user message to recover, `regenerateLastResponse` is a silent no-op: the
state — history still ending in the assistant message, error still `none` —
is unchanged, so nothing fails with an `InvalidState` error, contrary to the
claim. -/
theorem regenerateLastResponse_no_error_counterexample :
    regenerateLastResponse "u1" "a1" "t1"
        (Except.ok { deleted_message_id := "m9", last_user_message := none })
        (StreamResult.events []) stateR = stateR
    ∧ stateR.error = none := by
  decide

/-- Claim C8 (amended). With a conversation active: when the deletion
response names a deleted message and carries the preceding user message,
`regenerateLastResponse` removes the message with the returned
`deleted_message_id` from the local list and performs a fresh send cycle with
the recovered content (so the list then begins with the filtered history plus
a new optimistic user message carrying that content); when the response
carries no user message to recover, the call is a silent no-op; when the
deletion request itself fails — e.g. the server rejects it because there is
no trailing assistant message — the thrown message is stored as the store's
error value (no `InvalidState` error exists in the client). -/
theorem regenerateLastResponse_behavior {s : AppState} {conv : Conversation}
    (h : s.activeConversation = some conv) (uid aid now : String)
    (sendResult : StreamResult) (r : RegenerateResult) (lum : Message)
    (hl : r.last_user_message = some lum) (r0 : RegenerateResult)
    (h0 : r0.last_user_message = none) (msgF : String) :
    regenerateLastResponse uid aid now (Except.ok r) sendResult s
        = sendMessage uid aid now lum.content sendResult
            { s with messages := s.messages.filter (fun m => m.id != r.deleted_message_id) }
    ∧ beginsWith
        (s.messages.filter (fun m => m.id != r.deleted_message_id)
          ++ [mkUserMessage uid conv.id lum.content now])
        (regenerateLastResponse uid aid now (Except.ok r) sendResult s).messages = true
    ∧ regenerateLastResponse uid aid now (Except.ok r0) sendResult s = s
    ∧ regenerateLastResponse uid aid now (Except.error msgF) sendResult s
        = { s with error := some msgF } := by
  have h1 : regenerateLastResponse uid aid now (Except.ok r) sendResult s
      = sendMessage uid aid now lum.content sendResult
          { s with messages := s.messages.filter (fun m => m.id != r.deleted_message_id) } := by
    simp only [regenerateLastResponse, h, hl]
  refine ⟨h1, ?_, ?_, ?_⟩
  · rw [h1]
    obtain ⟨t, ht⟩ := sendMessage_appends_user
      (show ({ s with
          messages := s.messages.filter (fun m => m.id != r.deleted_message_id) }
          : AppState).activeConversation = some conv from h)
      uid aid now lum.content sendResult
    rw [ht]
    exact beginsWith_append_cons _ _ t
  · simp only [regenerateLastResponse, h, h0]
  · simp only [regenerateLastResponse, h]

/-- Witness for C8 at a concrete input: history `[userMsg0, asstMsg0]`, the
server deletes `asstMsg0` (id `"m9"`) and returns `userMsg0` as the message
to re-send; also a response with no user message, and a failing request. -/
theorem regenerateLastResponse_behavior_witness :
    regenerateLastResponse "u1" "a1" "t1"
        (Except.ok { deleted_message_id := "m9", last_user_message := some userMsg0 })
        (StreamResult.events []) stateR
        = sendMessage "u1" "a1" "t1" userMsg0.content (StreamResult.events [])
            { stateR with
              messages := stateR.messages.filter (fun m => m.id != "m9") }
    ∧ beginsWith
        (stateR.messages.filter (fun m => m.id != "m9")
          ++ [mkUserMessage "u1" conv0.id userMsg0.content "t1"])
        (regenerateLastResponse "u1" "a1" "t1"
          (Except.ok { deleted_message_id := "m9", last_user_message := some userMsg0 })
          (StreamResult.events []) stateR).messages = true
    ∧ regenerateLastResponse "u1" "a1" "t1"
        (Except.ok { deleted_message_id := "m9", last_user_message := none })
        (StreamResult.events []) stateR = stateR
    ∧ regenerateLastResponse "u1" "a1" "t1" (Except.error "Failed to regenerate")
        (StreamResult.events []) stateR
        = { stateR with error := some "Failed to regenerate" } :=
  @regenerateLastResponse_behavior stateR conv0 rfl "u1" "a1" "t1"
    (StreamResult.events [])
    { deleted_message_id := "m9", last_user_message := some userMsg0 } userMsg0 rfl
    { deleted_message_id := "m9", last_user_message := none } rfl
    "Failed to regenerate"

/-! ## Claim C9: a stream that ends without done or error -/

/-- Claim C9 (confirmed). If the consumed event sequence contains neither a
done nor an error event and no exception is thrown, `sendMessage` finishes
with the streaming flag still raised and no error recorded; a subsequent send
through the `useChat` guard is then silently ignored (the state is returned
unchanged), and selecting a conversation leaves the streaming flag raised as
well. -/
theorem unterminated_stream_sticky_streaming {s : AppState} {conv : Conversation}
    (h : s.activeConversation = some conv) (evs : List StreamChunk)
    (hnd : ∀ e ∈ evs, e.type ≠ ChunkType.done)
    (hne : ∀ e ∈ evs, e.type ≠ ChunkType.error)
    (uid aid now content uid2 aid2 now2 content2 : String)
    (result2 : StreamResult) (created : Conversation)
    (fetched fetched2 : List Message) (oconv : Option Conversation) :
    (sendMessage uid aid now content (StreamResult.events evs) s).isStreaming = true
    ∧ (sendMessage uid aid now content (StreamResult.events evs) s).error = none
    ∧ useChatSend uid2 aid2 now2 content2 result2 created fetched
        (sendMessage uid aid now content (StreamResult.events evs) s)
      = sendMessage uid aid now content (StreamResult.events evs) s
    ∧ (setActiveConversation oconv fetched2
        (sendMessage uid aid now content (StreamResult.events evs) s)).isStreaming
      = true := by
  have hch : ∀ e ∈ evs, e.type = ChunkType.chunk := by
    intro e he
    cases hc : e.type with
    | chunk => rfl
    | done => exact absurd hc (hnd e he)
    | error => exact absurd hc (hne e he)
  have hs : sendMessage uid aid now content (StreamResult.events evs) s
      = { startedState uid now content conv s with
          streamingContent :=
            (startedState uid now content conv s).streamingContent
              ++ concatContents evs } := by
    unfold sendMessage
    rw [h]
    exact foldl_chunks conv.id aid now evs hch (startedState uid now content conv s)
  refine ⟨by rw [hs]; rfl, by rw [hs]; rfl, ?_, ?_⟩
  · exact useChatSend_guard (by rw [hs]; rfl) uid2 aid2 now2 content2 result2
      created fetched
  · rw [setActiveConversation_isStreaming, hs]
    rfl

/-- Witness for C9 at a concrete input: the transport closes after a single
chunk with no terminal event; a retry is swallowed and selecting another
conversation keeps the flag raised. -/
theorem unterminated_stream_sticky_streaming_witness :
    (sendMessage "u1" "a1" "t1" "hi"
        (StreamResult.events [{ type := ChunkType.chunk, content := some "He" }])
        state0).isStreaming = true
    ∧ (sendMessage "u1" "a1" "t1" "hi"
        (StreamResult.events [{ type := ChunkType.chunk, content := some "He" }])
        state0).error = none
    ∧ useChatSend "u2" "a2" "t2" "again" (StreamResult.events []) conv0 []
        (sendMessage "u1" "a1" "t1" "hi"
          (StreamResult.events [{ type := ChunkType.chunk, content := some "He" }])
          state0)
      = sendMessage "u1" "a1" "t1" "hi"
          (StreamResult.events [{ type := ChunkType.chunk, content := some "He" }])
          state0
    ∧ (setActiveConversation none []
        (sendMessage "u1" "a1" "t1" "hi"
          (StreamResult.events [{ type := ChunkType.chunk, content := some "He" }])
          state0)).isStreaming = true :=
  @unterminated_stream_sticky_streaming state0 conv0 rfl
    [{ type := ChunkType.chunk, content := some "He" }]
    (by decide) (by decide) "u1" "a1" "t1" "hi" "u2" "a2" "t2" "again"
    (StreamResult.events []) conv0 [] [] none

end LocalAI
